import Mathlib

/-!
Verification of the Sudoku engine of
src/sudoku_solver_frontend/src/pages/Regular.jsx.

Grids are embedded as functions from a pair of indices in Fin 9 to Nat,
with 0 meaning an empty cell.  The mutating JavaScript backtracking search
is embedded with explicit state passing and a fuel argument bounding the
recursion depth; fuel irrelevance beyond the number of empty cells is
proved below, so the fueled function computes what the unbounded source
recursion computes.  Ambient randomness (Math.random) is abstracted as an
injected stream of natural numbers, with a draw counter threaded through
the search in source call order.
-/

abbrev Grid := Fin 9 → Fin 9 → Nat

/-- Embedding of createEmptyGrid: the all zero grid. -/
def createEmptyGrid : Grid := fun _ _ => 0

/-- Embedding of the DIGITS constant of the source. -/
def DIGITS : List Nat := [1, 2, 3, 4, 5, 6, 7, 8, 9]

/-- Embedding of cloneGrid.  At the level of grid values a copy is the
identity; the aliasing behaviour of the source is modelled separately in
the heap model further down. -/
def cloneGrid (g : Grid) : Grid := fun r c => g r c

/-- Single cell update, the JavaScript assignment g[r][c] = v. -/
def setCell (g : Grid) (r c : Fin 9) (v : Nat) : Grid :=
  fun x y => if x = r ∧ y = c then v else g x y

/-- Index of a cell of the 3 by 3 box of x: start of the 3-block of x plus
an offset below 3, as computed by the source (Math.floor(x / 3) * 3). -/
def boxIdx (x : Fin 9) (d : Fin 3) : Fin 9 :=
  ⟨x.val / 3 * 3 + d.val, by have h1 := x.isLt; have h2 := d.isLt; omega⟩

/-- Embedding of isValidPlacement from the source: the first loop rejects
val at any other index of the row or of the column holding val, the box
loop rejects val at any other cell of the 3 by 3 box holding val. -/
def isValidPlacement (g : Grid) (row col : Fin 9) (val : Nat) : Bool :=
  ((List.finRange 9).all fun i =>
    decide (¬(i ≠ col ∧ g row i = val) ∧ ¬(i ≠ row ∧ g i col = val))) &&
  ((List.finRange 3).all fun a =>
    (List.finRange 3).all fun b =>
      decide (¬((boxIdx row a ≠ row ∨ boxIdx col b ≠ col) ∧
                 g (boxIdx row a) (boxIdx col b) = val)))

/-- All cell positions in row major order. -/
def allCells : List (Fin 9 × Fin 9) :=
  List.product (List.finRange 9) (List.finRange 9)

/-- Embedding of findEmpty: the first empty cell in row major order. -/
def findEmpty (g : Grid) : Option (Fin 9 × Fin 9) :=
  allCells.find? fun p => decide (g p.1 p.2 = 0)

/-- Number of empty cells of a grid. -/
def countEmpty (g : Grid) : Nat :=
  (Finset.univ.filter fun p : Fin 9 × Fin 9 => g p.1 p.2 = 0).card

/-- Number of filled cells of a grid. -/
def countFilled (g : Grid) : Nat :=
  (Finset.univ.filter fun p : Fin 9 × Fin 9 => g p.1 p.2 ≠ 0).card

/-- Embedding of gridHasConflicts: a filled cell conflicts when clearing it
on a copy and re-checking its value at its position fails. -/
def gridHasConflicts (g : Grid) : Bool :=
  allCells.any fun p =>
    decide (g p.1 p.2 ≠ 0) &&
    !(isValidPlacement (setCell (cloneGrid g) p.1 p.2 0) p.1 p.2 (g p.1 p.2))

/-- One candidate loop of the backtracking search (the for loop over the
candidate values in the source).  The components of the result are the
success flag, the state of the searched grid after the loop, and the
number of random draws consumed so far (threaded for the generator; the
solver leaves it unchanged).  As in the source, a candidate is written
into the cell, validated, and the cell is reset to 0 when the branch
fails. -/
def tryCand (recur : Nat → Grid → Bool × Grid × Nat) (r c : Fin 9) :
    Grid → Nat → List Nat → Bool × Grid × Nat
  | g, k, [] => (false, g, k)
  | g, k, v :: rest =>
    let g1 := setCell g r c v
    if isValidPlacement g1 r c v then
      let res := recur k g1
      if res.1 then res
      else tryCand recur r c (setCell res.2.1 r c 0) res.2.2 rest
    else tryCand recur r c (setCell g1 r c 0) k rest

/-- The backtracking search shared by the solver and the generator; cand
supplies the candidate digits for a node together with the updated draw
counter.  The fuel argument bounds the recursion depth: any fuel of at
least countEmpty g gives the behaviour of the unbounded source recursion,
as proved below. -/
def searchS (cand : Nat → List Nat × Nat) : Nat → Nat → Grid → Bool × Grid × Nat
  | 0, k, g =>
    match findEmpty g with
    | none => (true, g, k)
    | some _ => (false, g, k)
  | fuel + 1, k, g =>
    match findEmpty g with
    | none => (true, g, k)
    | some (r, c) => tryCand (searchS cand fuel) r c g (cand k).2 (cand k).1

/-- Candidate supplier of the solver: the digits in ascending order, no
random draws consumed. -/
def solveCand : Nat → List Nat × Nat := fun k => (DIGITS, k)

/-- Embedding of solveSudoku: run the backtracking search on a private
copy of the grid and return the success flag with the final grid. -/
def solveSudoku (grid : Grid) : Bool × Grid :=
  ((searchS solveCand 81 0 (cloneGrid grid)).1,
   (searchS solveCand 81 0 (cloneGrid grid)).2.1)

/-- Spec side relation: the second cell lies in the same row, the same
column or the same 3 by 3 box as the first cell. -/
def sameUnit (a b r c : Fin 9) : Prop :=
  r = a ∨ c = b ∨ (r.val / 3 = a.val / 3 ∧ c.val / 3 = b.val / 3)

instance (a b r c : Fin 9) : Decidable (sameUnit a b r c) := by
  unfold sameUnit; infer_instance

/-- Spec side reading of the isValidPlacement contract: no cell other than
(row, col) in the same row, the same column or the same box holds val. -/
def noOtherHolds (g : Grid) (row col : Fin 9) (val : Nat) : Prop :=
  ∀ r c : Fin 9, ¬(r = row ∧ c = col) → sameUnit row col r c → g r c ≠ val

instance (g : Grid) (row col : Fin 9) (val : Nat) :
    Decidable (noOtherHolds g row col val) := by
  unfold noOtherHolds; infer_instance

/-- Invariant of a successful search: the result agrees with the input on
filled cells, fills every empty cell with a digit, and every originally
empty cell passes the placement check inside the result. -/
def SolvedFrom (g F : Grid) : Prop :=
  (∀ r c, g r c ≠ 0 → F r c = g r c) ∧
  (∀ r c, g r c = 0 → F r c ∈ DIGITS) ∧
  (∀ r c, g r c = 0 → noOtherHolds F r c (F r c))

instance (g F : Grid) : Decidable (SolvedFrom g F) := by
  unfold SolvedFrom; infer_instance

/-- Modelled from the wording of claim C2: a valid completion assigns a
digit from 1 to 9 to every empty cell and makes every filled cell satisfy
the placement check. -/
def ValidCompletion (g F : Grid) : Prop :=
  (∀ r c, g r c ≠ 0 → F r c = g r c) ∧
  (∀ r c, g r c = 0 → 1 ≤ F r c ∧ F r c ≤ 9) ∧
  (∀ r c, isValidPlacement F r c (F r c) = true)

instance (g F : Grid) : Decidable (ValidCompletion g F) := by
  unfold ValidCompletion; infer_instance

/-- Grid built from a list of rows; missing entries read as 0. -/
def gridOfLists (l : List (List Nat)) : Grid :=
  fun r c => (l.getD r.val []).getD c.val 0

/-- The grid holding 1 in every cell. -/
def allOnes : Grid := fun _ _ => 1

/-- A concrete fully solved grid. -/
def solvedGrid : Grid := gridOfLists
  [[1, 2, 3, 4, 5, 6, 7, 8, 9],
   [4, 5, 6, 7, 8, 9, 1, 2, 3],
   [7, 8, 9, 1, 2, 3, 4, 5, 6],
   [2, 3, 4, 5, 6, 7, 8, 9, 1],
   [5, 6, 7, 8, 9, 1, 2, 3, 4],
   [8, 9, 1, 2, 3, 4, 5, 6, 7],
   [3, 4, 5, 6, 7, 8, 9, 1, 2],
   [6, 7, 8, 9, 1, 2, 3, 4, 5],
   [9, 1, 2, 3, 4, 5, 6, 7, 8]]

/-- A conflict free grid whose first cell has no possible digit at all: its row
already holds 1 to 8 and its column holds 9.  The search fails on it after
a single level of nine rejected candidates. -/
def stuckGrid : Grid := gridOfLists
  [[0, 1, 2, 3, 4, 5, 6, 7, 8],
   [9, 0, 0, 0, 0, 0, 0, 0, 0]]

/-- Swap of two positions of a list, the JavaScript destructuring swap of
the Fisher and Yates loop body. -/
def listSwap (l : List Nat) (i j : Nat) : List Nat :=
  (l.set i (l.getD j 0)).set j (l.getD i 0)

/-- Fisher and Yates shuffle loop: m is the loop variable counting down,
k indexes the injected random stream.  Each step draws one random number,
reduced modulo m + 1 positions as Math.floor(Math.random() * (m + 1))
always lies in that range, and swaps position m with it. -/
def fyAux (rand : Nat → Nat) : Nat → List Nat → Nat → List Nat
  | _, l, 0 => l
  | k, l, m + 1 => fyAux rand (k + 1) (listSwap l (m + 1) (rand k % (m + 2))) m

/-- Embedding of shuffledDigits: shuffle a copy of DIGITS, consuming eight
random draws. -/
def shuffledDigits (rand : Nat → Nat) (k : Nat) : List Nat :=
  fyAux rand k DIGITS 8

/-- Candidate supplier of the generator: a fresh shuffle of the digits per
node, consuming eight draws. -/
def genCand (rand : Nat → Nat) : Nat → List Nat × Nat :=
  fun k => (shuffledDigits rand k, k + 8)

/-- The randomized fill of generateSudoku, run on the empty grid. -/
def genFill (rand : Nat → Nat) : Bool × Grid × Nat :=
  searchS (genCand rand) 81 0 createEmptyGrid

/-- Row index of a flat cell index: Math.floor(idx / 9), which for the
indices 0 to 80 used by the source is below 9. -/
def rowOfIdx (idx : Nat) : Fin 9 := ⟨idx / 9 % 9, by omega⟩

/-- Column index of a flat cell index: idx % 9. -/
def colOfIdx (idx : Nat) : Fin 9 := ⟨idx % 9, by omega⟩

/-- Removal loop of generateSudoku: zero the cells at the given flat
indices. -/
def removeCells (g : Grid) (l : List Nat) : Grid :=
  l.foldl (fun p idx => setCell p (rowOfIdx idx) (colOfIdx idx) 0) g

/-- Shuffled permutation of the 81 flat cell indices, drawn after the fill
has consumed its draws. -/
def genIndices (rand : Nat → Nat) : List Nat :=
  fyAux rand (genFill rand).2.2 (List.range 81) 80

/-- Number of givens kept by generateSudoku: the clamp of the option to
the closed range 17 to 81. -/
def keepCount (givens : Int) : Nat := (max 17 (min 81 givens)).toNat

/-- Number of removed cells: 81 minus the clamped givens. -/
def toRemoveCount (givens : Int) : Nat := (81 - max 17 (min 81 givens)).toNat

/-- Puzzle component of generateSudoku: zero the cells at the first
toRemoveCount entries of the shuffled list of all 81 positions of a copy
of the solution. -/
def genPuzzle (rand : Nat → Nat) (givens : Int) : Grid :=
  removeCells (cloneGrid (genFill rand).2.1)
    ((genIndices rand).take (toRemoveCount givens))

/-- Solution component of generateSudoku: the grid built by the fill. -/
def genSolutionGrid (rand : Nat → Nat) : Grid := (genFill rand).2.1

/-- Embedding of generateSudoku: fill a solved grid with randomized digit
order, then derive the puzzle by random removal.  The result is the pair
of puzzle and solution. -/
def generateSudoku (rand : Nat → Nat) (givens : Int) : Grid × Grid :=
  (genPuzzle rand givens, genSolutionGrid rand)

/-- Heap of row arrays for the aliasing model: addresses map to row
contents.  Only the row arrays are mutated by the source engine, so only
they live in the heap; a grid object is its list of row addresses. -/
abbrev Heap := Nat → List Nat

/-- Heap update at one address. -/
def hUpdate (h : Heap) (a : Nat) (row : List Nat) : Heap :=
  fun x => if x = a then row else h x

/-- Address of row r of a grid object. -/
def rowAddr (addrs : List Nat) (r : Nat) : Nat := addrs.getD r 0

/-- Cell read through the heap, the JavaScript g[r][c]. -/
def readCellH (h : Heap) (addrs : List Nat) (r c : Nat) : Nat :=
  (h (rowAddr addrs r)).getD c 0

/-- Cell write through the heap, the JavaScript g[r][c] = v. -/
def writeCellH (h : Heap) (addrs : List Nat) (r c v : Nat) : Heap :=
  hUpdate h (rowAddr addrs r) ((h (rowAddr addrs r)).set c v)

/-- All positions as plain numbers, row major. -/
def allCellsN : List (Nat × Nat) :=
  List.product (List.range 9) (List.range 9)

/-- findEmpty on the heap representation. -/
def findEmptyH (h : Heap) (addrs : List Nat) : Option (Nat × Nat) :=
  allCellsN.find? fun p => decide (readCellH h addrs p.1 p.2 = 0)

/-- isValidPlacement on the heap representation. -/
def isValidPlacementH (h : Heap) (addrs : List Nat) (row col val : Nat) : Bool :=
  ((List.range 9).all fun i =>
    decide (¬(i ≠ col ∧ readCellH h addrs row i = val) ∧
            ¬(i ≠ row ∧ readCellH h addrs i col = val))) &&
  ((List.range 3).all fun a =>
    (List.range 3).all fun b =>
      decide (¬((row / 3 * 3 + a ≠ row ∨ col / 3 * 3 + b ≠ col) ∧
                 readCellH h addrs (row / 3 * 3 + a) (col / 3 * 3 + b) = val)))

/-- Candidate loop of the backtracking search in the heap model. -/
def tryCandH (recur : Heap → Bool × Heap) (addrs : List Nat) (r c : Nat) :
    Heap → List Nat → Bool × Heap
  | h, [] => (false, h)
  | h, v :: rest =>
    let h1 := writeCellH h addrs r c v
    if isValidPlacementH h1 addrs r c v then
      let res := recur h1
      if res.1 then res
      else tryCandH recur addrs r c (writeCellH res.2 addrs r c 0) rest
    else tryCandH recur addrs r c (writeCellH h1 addrs r c 0) rest

/-- Backtracking search of solveSudoku in the heap model. -/
def backtrackH (addrs : List Nat) : Nat → Heap → Bool × Heap
  | 0, h =>
    match findEmptyH h addrs with
    | none => (true, h)
    | some _ => (false, h)
  | fuel + 1, h =>
    match findEmptyH h addrs with
    | none => (true, h)
    | some (r, c) => tryCandH (backtrackH addrs fuel) addrs r c h DIGITS

/-- Embedding of cloneGrid in the heap model: allocate nine fresh row
addresses starting at n and copy the caller rows into them, as r.slice()
does. -/
def cloneGridHeap (h : Heap) (n : Nat) (addrs : List Nat) : Heap :=
  (List.range 9).foldl (fun hh i => hUpdate hh (n + i) (h (rowAddr addrs i))) h

/-- Addresses of the cloned rows. -/
def cloneAddrs (n : Nat) : List Nat := (List.range 9).map (n + ·)

/-- Embedding of solveSudoku in the heap model: the search runs on the
fresh clone while the caller keeps its own row addresses. -/
def solveSudokuHeap (h : Heap) (n : Nat) (addrs : List Nat) : Bool × Heap :=
  backtrackH (cloneAddrs n) 81 (cloneGridHeap h n addrs)

/-- Cell for cell snapshot of a grid object as read through the heap. -/
def gridSnapshot (h : Heap) (addrs : List Nat) : List (List Nat) :=
  (List.range 9).map fun r => (List.range 9).map fun c => readCellH h addrs r c

/-- Grid as the JavaScript array of arrays, for the out of range model. -/
abbrev GridL := List (List Nat)

/-- Check whether an Except value finished without a thrown error. -/
def jsNoThrow (e : Except Unit Bool) : Bool :=
  match e with
  | Except.ok _ => true
  | Except.error _ => false

/-- Row and column loop of isValidPlacement under JavaScript array
semantics: reading an element of a missing row object throws, modelled as
Except.error, while reading a missing element of an existing row yields
undefined, which compares unequal to every number.  The conjunctions of
the source short circuit, so a read guarded by a false index test does not
happen. -/
def rowColCheckJS (grid : GridL) (row col val : Nat) : List Nat → Except Unit Bool
  | [] => Except.ok true
  | i :: rest =>
    (if i = col then Except.ok false
     else
       match grid[row]? with
       | none => Except.error ()
       | some rowl => Except.ok (decide (rowl[i]? = some val))).bind fun c1 =>
    if c1 then Except.ok false
    else
      (if i = row then Except.ok false
       else
         match grid[i]? with
         | none => Except.error ()
         | some rowl => Except.ok (decide (rowl[col]? = some val))).bind fun c2 =>
      if c2 then Except.ok false
      else rowColCheckJS grid row col val rest

/-- Box loop of isValidPlacement under JavaScript array semantics. -/
def boxCheckJS (grid : GridL) (row col val : Nat) : List (Nat × Nat) → Except Unit Bool
  | [] => Except.ok true
  | (r, c) :: rest =>
    (if r = row ∧ c = col then Except.ok false
     else
       match grid[r]? with
       | none => Except.error ()
       | some rowl => Except.ok (decide (rowl[c]? = some val))).bind fun cond =>
    if cond then Except.ok false
    else boxCheckJS grid row col val rest

/-- Cells of the box loop in source order. -/
def boxCellsJS (br bc : Nat) : List (Nat × Nat) :=
  List.product [br, br + 1, br + 2] [bc, bc + 1, bc + 2]

/-- Embedding of isValidPlacement under JavaScript array semantics, used
to settle the behaviour on out of range arguments: a thrown TypeError is
Except.error. -/
def isValidPlacementJS (grid : GridL) (row col val : Nat) : Except Unit Bool :=
  (rowColCheckJS grid row col val (List.range 9)).bind fun ok1 =>
    if ok1 then boxCheckJS grid row col val (boxCellsJS (row / 3 * 3) (col / 3 * 3))
    else Except.ok false

/-- The empty 9 by 9 grid as a JavaScript array of arrays. -/
def jsEmptyGrid : GridL := List.replicate 9 (List.replicate 9 0)

/-- Reading the written cell gives the written value. -/
theorem setCell_eq (g : Grid) (r c : Fin 9) (v : Nat) : setCell g r c v r c = v := by
  simp [setCell]

/-- Reading any other cell is unchanged by a write. -/
theorem setCell_ne (g : Grid) (r c : Fin 9) (v : Nat) (x y : Fin 9)
    (h : ¬(x = r ∧ y = c)) : setCell g r c v x y = g x y := by
  simp only [setCell, if_neg h]

/-- Two writes to the same cell collapse to the second one. -/
theorem setCell_setCell (g : Grid) (r c : Fin 9) (v w : Nat) :
    setCell (setCell g r c v) r c w = setCell g r c w := by
  funext x y
  by_cases h : x = r ∧ y = c
  · simp [setCell, h]
  · simp [setCell, h]

/-- Writing the value a cell already holds is the identity. -/
theorem setCell_self (g : Grid) (r c : Fin 9) (h : g r c = 0) :
    setCell g r c 0 = g := by
  funext x y
  by_cases hxy : x = r ∧ y = c
  · obtain ⟨hx, hy⟩ := hxy
    subst hx; subst hy
    simp [setCell, h]
  · simp [setCell, hxy]

/-- Characterisation of the source placement check by the spec side
predicate: the check passes exactly when no other cell of the same row,
column or box holds the value. -/
theorem isValidPlacement_iff (g : Grid) (row col : Fin 9) (val : Nat) :
    isValidPlacement g row col val = true ↔ noOtherHolds g row col val := by
  unfold isValidPlacement noOtherHolds
  simp only [Bool.and_eq_true, List.all_eq_true, decide_eq_true_eq]
  constructor
  · rintro ⟨h1, h2⟩ r c hne hsu
    rcases hsu with hr | hc | hbox
    · subst hr
      have hcc : c ≠ col := fun h => hne ⟨rfl, h⟩
      intro hval
      exact (h1 c (List.mem_finRange c)).1 ⟨hcc, hval⟩
    · subst hc
      have hrr : r ≠ row := fun h => hne ⟨h, rfl⟩
      intro hval
      exact (h1 r (List.mem_finRange r)).2 ⟨hrr, hval⟩
    · obtain ⟨hbr, hbc⟩ := hbox
      have hr9 := r.isLt
      have hc9 := c.isLt
      have hrow9 := row.isLt
      have hcol9 := col.isLt
      intro hval
      obtain ⟨a3, ha3⟩ : ∃ a : Fin 3, boxIdx row a = r :=
        ⟨⟨r.val % 3, by omega⟩, by
          apply Fin.ext
          show row.val / 3 * 3 + r.val % 3 = r.val
          omega⟩
      obtain ⟨b3, hb3⟩ : ∃ b : Fin 3, boxIdx col b = c :=
        ⟨⟨c.val % 3, by omega⟩, by
          apply Fin.ext
          show col.val / 3 * 3 + c.val % 3 = c.val
          omega⟩
      have hb := h2 a3 (List.mem_finRange _) b3 (List.mem_finRange _)
      rw [ha3, hb3] at hb
      have hor : r ≠ row ∨ c ≠ col := by
        by_cases hrr : r = row
        · exact Or.inr fun hcc => hne ⟨hrr, hcc⟩
        · exact Or.inl hrr
      exact hb ⟨hor, hval⟩
  · intro h
    refine ⟨fun i _ => ⟨?_, ?_⟩, fun a _ b _ => ?_⟩
    · rintro ⟨hic, hval⟩
      exact h row i (fun hh => hic hh.2) (Or.inl rfl) hval
    · rintro ⟨hir, hval⟩
      exact h i col (fun hh => hir hh.1) (Or.inr (Or.inl rfl)) hval
    · rintro ⟨hor, hval⟩
      refine h (boxIdx row a) (boxIdx col b) ?_ ?_ hval
      · rintro ⟨e1, e2⟩
        rcases hor with h3 | h3
        · exact h3 e1
        · exact h3 e2
      · have ha3 := a.isLt
        have hb3 := b.isLt
        have hrow9 := row.isLt
        have hcol9 := col.isLt
        refine Or.inr (Or.inr ⟨?_, ?_⟩)
        · show (row.val / 3 * 3 + a.val) / 3 = row.val / 3
          omega
        · show (col.val / 3 * 3 + b.val) / 3 = col.val / 3
          omega

/-- The placement check only reads cells other than the checked one. -/
theorem noOtherHolds_congr (g g2 : Grid) (row col : Fin 9) (val : Nat)
    (h : ∀ r c, ¬(r = row ∧ c = col) → g r c = g2 r c) :
    noOtherHolds g row col val ↔ noOtherHolds g2 row col val := by
  unfold noOtherHolds
  constructor
  · intro hn r c hne hsu
    rw [← h r c hne]
    exact hn r c hne hsu
  · intro hn r c hne hsu
    rw [h r c hne]
    exact hn r c hne hsu

/-- Clearing the checked cell first does not change the placement check,
since the check skips that cell. -/
theorem isValidPlacement_clear (g : Grid) (r c : Fin 9) (v : Nat) :
    isValidPlacement (setCell g r c 0) r c v = isValidPlacement g r c v := by
  have h3 : noOtherHolds (setCell g r c 0) r c v ↔ noOtherHolds g r c v :=
    noOtherHolds_congr _ _ _ _ _ (fun x y hxy => setCell_ne g r c 0 x y hxy)
  cases hb : isValidPlacement g r c v
  · cases hb2 : isValidPlacement (setCell g r c 0) r c v
    · rfl
    · exfalso
      have := (isValidPlacement_iff g r c v).mpr
        (h3.mp ((isValidPlacement_iff (setCell g r c 0) r c v).mp hb2))
      rw [hb] at this
      exact Bool.false_ne_true this
  · exact (isValidPlacement_iff (setCell g r c 0) r c v).mpr
      (h3.mpr ((isValidPlacement_iff g r c v).mp hb))

/-- Copying a grid value is the identity. -/
theorem cloneGrid_eq (g : Grid) : cloneGrid g = g := rfl

/-- Pointwise unfolding of setCell. -/
theorem setCell_app (g : Grid) (r c : Fin 9) (v : Nat) (x y : Fin 9) :
    setCell g r c v x y = if x = r ∧ y = c then v else g x y := rfl

/-- Every cell position lies in the row major list of positions. -/
theorem mem_allCells (p : Fin 9 × Fin 9) : p ∈ allCells := by
  cases p with
  | mk r c =>
    exact List.pair_mem_product.mpr ⟨List.mem_finRange r, List.mem_finRange c⟩

/-- findEmpty returns none exactly on a grid with no empty cell. -/
theorem findEmpty_eq_none_iff (g : Grid) :
    findEmpty g = none ↔ ∀ r c, g r c ≠ 0 := by
  unfold findEmpty
  rw [List.find?_eq_none]
  constructor
  · intro h r c
    have := h (r, c) (mem_allCells _)
    simpa using this
  · intro h p _
    simpa using h p.1 p.2

/-- The cell reported by findEmpty is empty. -/
theorem findEmpty_some (g : Grid) (r c : Fin 9)
    (h : findEmpty g = some (r, c)) : g r c = 0 := by
  have := List.find?_some h
  simpa using this

/-- countEmpty vanishes exactly on a grid with no empty cell. -/
theorem countEmpty_eq_zero_iff (g : Grid) :
    countEmpty g = 0 ↔ ∀ r c, g r c ≠ 0 := by
  unfold countEmpty
  rw [Finset.card_eq_zero, Finset.filter_eq_empty_iff]
  constructor
  · intro h r c
    exact h (Finset.mem_univ (r, c))
  · intro h p _
    exact h p.1 p.2

/-- There are at most 81 empty cells. -/
theorem countEmpty_le_81 (g : Grid) : countEmpty g ≤ 81 := by
  unfold countEmpty
  have := Finset.card_filter_le (Finset.univ : Finset (Fin 9 × Fin 9))
    (fun p => g p.1 p.2 = 0)
  simpa using this

/-- Writing a nonzero value into an empty cell decreases the number of
empty cells. -/
theorem countEmpty_set_lt (g : Grid) (r c : Fin 9) (v : Nat)
    (hz : g r c = 0) (hv : v ≠ 0) :
    countEmpty (setCell g r c v) < countEmpty g := by
  unfold countEmpty
  have hset : (Finset.univ.filter fun p : Fin 9 × Fin 9 => setCell g r c v p.1 p.2 = 0)
      = (Finset.univ.filter fun p : Fin 9 × Fin 9 => g p.1 p.2 = 0).erase (r, c) := by
    ext p
    simp only [Finset.mem_erase, Finset.mem_filter, Finset.mem_univ, true_and]
    constructor
    · intro hp
      by_cases hpe : p.1 = r ∧ p.2 = c
      · exfalso
        rw [setCell_app, if_pos hpe] at hp
        exact hv hp
      · rw [setCell_ne g r c v p.1 p.2 hpe] at hp
        refine ⟨?_, hp⟩
        intro hpp
        apply hpe
        rw [hpp]
        exact ⟨rfl, rfl⟩
    · rintro ⟨hne, hp⟩
      have hpe : ¬(p.1 = r ∧ p.2 = c) := by
        rintro ⟨h1, h2⟩
        apply hne
        cases p
        simp_all
      rw [setCell_ne g r c v p.1 p.2 hpe]
      exact hp
  rw [hset]
  have hmem : (r, c) ∈ (Finset.univ.filter fun p : Fin 9 × Fin 9 => g p.1 p.2 = 0) := by
    simp [hz]
  have hcard := Finset.card_erase_of_mem hmem
  have hpos : 0 < (Finset.univ.filter fun p : Fin 9 × Fin 9 => g p.1 p.2 = 0).card :=
    Finset.card_pos.mpr ⟨(r, c), hmem⟩
  omega

/-- Clearing a filled cell decreases the number of filled cells by one. -/
theorem countFilled_set_zero (g : Grid) (r c : Fin 9) (hz : g r c ≠ 0) :
    countFilled (setCell g r c 0) + 1 = countFilled g := by
  unfold countFilled
  have hset : (Finset.univ.filter fun p : Fin 9 × Fin 9 => setCell g r c 0 p.1 p.2 ≠ 0)
      = (Finset.univ.filter fun p : Fin 9 × Fin 9 => g p.1 p.2 ≠ 0).erase (r, c) := by
    ext p
    simp only [Finset.mem_erase, Finset.mem_filter, Finset.mem_univ, true_and]
    constructor
    · intro hp
      by_cases hpe : p.1 = r ∧ p.2 = c
      · exfalso
        rw [setCell_app, if_pos hpe] at hp
        exact hp rfl
      · rw [setCell_ne g r c 0 p.1 p.2 hpe] at hp
        refine ⟨?_, hp⟩
        intro hpp
        apply hpe
        rw [hpp]
        exact ⟨rfl, rfl⟩
    · rintro ⟨hne, hp⟩
      have hpe : ¬(p.1 = r ∧ p.2 = c) := by
        rintro ⟨h1, h2⟩
        apply hne
        cases p
        simp_all
      rw [setCell_ne g r c 0 p.1 p.2 hpe]
      exact hp
  rw [hset]
  have hmem : (r, c) ∈ (Finset.univ.filter fun p : Fin 9 × Fin 9 => g p.1 p.2 ≠ 0) := by
    simp [hz]
  have hcard := Finset.card_erase_of_mem hmem
  have hpos : 0 < (Finset.univ.filter fun p : Fin 9 × Fin 9 => g p.1 p.2 ≠ 0).card :=
    Finset.card_pos.mpr ⟨(r, c), hmem⟩
  omega

/-- A grid with no empty cell has 81 filled cells. -/
theorem countFilled_eq_81 (g : Grid) (h : ∀ r c, g r c ≠ 0) : countFilled g = 81 := by
  unfold countFilled
  have hall : (Finset.univ.filter fun p : Fin 9 × Fin 9 => g p.1 p.2 ≠ 0) = Finset.univ := by
    apply Finset.filter_true_of_mem
    intro x _
    exact h x.1 x.2
  rw [hall]
  simp

/-- Characterisation of a conflict free grid: every filled cell passes the
placement check against the rest of the grid. -/
theorem gridHasConflicts_eq_false_iff (g : Grid) :
    gridHasConflicts g = false ↔ ∀ r c, g r c ≠ 0 → noOtherHolds g r c (g r c) := by
  unfold gridHasConflicts
  simp only [cloneGrid_eq]
  rw [← Bool.not_eq_true, List.any_eq_true]
  simp only [Bool.and_eq_true, decide_eq_true_eq, Bool.not_eq_true']
  constructor
  · intro h r c hz
    have hnf : ¬(isValidPlacement (setCell g r c 0) r c (g r c) = false) := by
      intro hf
      exact h ⟨(r, c), mem_allCells _, hz, hf⟩
    have ht : isValidPlacement (setCell g r c 0) r c (g r c) = true := by
      cases hb : isValidPlacement (setCell g r c 0) r c (g r c)
      · exact absurd hb hnf
      · rfl
    rw [isValidPlacement_clear] at ht
    exact (isValidPlacement_iff g r c (g r c)).mp ht
  · rintro h ⟨p, _, hz, hf⟩
    have ht : isValidPlacement (setCell g p.1 p.2 0) p.1 p.2 (g p.1 p.2) = true := by
      rw [isValidPlacement_clear]
      exact (isValidPlacement_iff g p.1 p.2 (g p.1 p.2)).mpr (h p.1 p.2 hz)
    rw [ht] at hf
    cases hf

/-- Unfolding of the candidate loop on the empty list. -/
theorem tryCand_nil (recur : Nat → Grid → Bool × Grid × Nat) (r c : Fin 9)
    (g : Grid) (k : Nat) : tryCand recur r c g k [] = (false, g, k) := rfl

/-- Unfolding of the candidate loop on a nonempty list. -/
theorem tryCand_cons (recur : Nat → Grid → Bool × Grid × Nat) (r c : Fin 9)
    (g : Grid) (k : Nat) (v : Nat) (rest : List Nat) :
    tryCand recur r c g k (v :: rest) =
      if isValidPlacement (setCell g r c v) r c v then
        if (recur k (setCell g r c v)).1 then recur k (setCell g r c v)
        else tryCand recur r c (setCell (recur k (setCell g r c v)).2.1 r c 0)
               (recur k (setCell g r c v)).2.2 rest
      else tryCand recur r c (setCell (setCell g r c v) r c 0) k rest := rfl

/-- Unfolding of the search at fuel zero. -/
theorem searchS_zero (cand : Nat → List Nat × Nat) (k : Nat) (g : Grid) :
    searchS cand 0 k g =
      match findEmpty g with
      | none => (true, g, k)
      | some _ => (false, g, k) := rfl

/-- Unfolding of the search at positive fuel. -/
theorem searchS_succ (cand : Nat → List Nat × Nat) (fuel k : Nat) (g : Grid) :
    searchS cand (fuel + 1) k g =
      match findEmpty g with
      | none => (true, g, k)
      | some (r, c) => tryCand (searchS cand fuel) r c g (cand k).2 (cand k).1 := rfl

/-- Candidate loop restoration: when the loop fails, the searched grid is
back in its entry state, every tentative write undone. -/
theorem tryCand_restore (recur : Nat → Grid → Bool × Grid × Nat)
    (hrec : ∀ k h, (recur k h).1 = false → (recur k h).2.1 = h)
    (r c : Fin 9) (l : List Nat) :
    ∀ (g : Grid) (k : Nat), g r c = 0 →
      (tryCand recur r c g k l).1 = false → (tryCand recur r c g k l).2.1 = g := by
  induction l with
  | nil =>
    intro g k _ _
    rfl
  | cons v rest ih =>
    intro g k hz
    rw [tryCand_cons]
    have hreset : setCell (setCell g r c v) r c 0 = g := by
      rw [setCell_setCell, setCell_self g r c hz]
    by_cases hv : isValidPlacement (setCell g r c v) r c v = true
    · rw [if_pos hv]
      by_cases hb : (recur k (setCell g r c v)).1 = true
      · rw [if_pos hb]
        intro hfail
        rw [hb] at hfail
        cases hfail
      · rw [if_neg hb]
        have hbf : (recur k (setCell g r c v)).1 = false := by
          cases hh : (recur k (setCell g r c v)).1
          · rfl
          · exact absurd hh hb
        have hs := hrec k (setCell g r c v) hbf
        rw [hs, hreset]
        exact ih g (recur k (setCell g r c v)).2.2 hz
    · rw [if_neg hv, hreset]
      exact ih g k hz

/-- Search restoration: a failed search returns the input grid. -/
theorem searchS_restore (cand : Nat → List Nat × Nat) :
    ∀ (fuel k : Nat) (g : Grid), (searchS cand fuel k g).1 = false →
      (searchS cand fuel k g).2.1 = g := by
  intro fuel
  induction fuel with
  | zero =>
    intro k g
    rw [searchS_zero]
    cases hfe : findEmpty g
    · intro h
      cases h
    · intro _
      rfl
  | succ fuel ih =>
    intro k g
    rw [searchS_succ]
    cases hfe : findEmpty g with
    | none =>
      intro h
      cases h
    | some p =>
      cases p with
      | mk r c =>
        have hz : g r c = 0 := findEmpty_some g r c hfe
        exact tryCand_restore (searchS cand fuel) (fun k2 h2 => ih k2 h2) r c
          (cand k).1 g (cand k).2 hz

/-- Membership in the digit list is being between 1 and 9. -/
theorem mem_DIGITS_iff (v : Nat) : v ∈ DIGITS ↔ 1 ≤ v ∧ v ≤ 9 := by
  unfold DIGITS
  simp only [List.mem_cons, List.not_mem_nil, or_false]
  omega

/-- The same unit relation is symmetric. -/
theorem sameUnit_symm (a b r c : Fin 9) (h : sameUnit a b r c) : sameUnit r c a b := by
  unfold sameUnit at h ⊢
  rcases h with h | h | h
  · exact Or.inl h.symm
  · exact Or.inr (Or.inl h.symm)
  · exact Or.inr (Or.inr ⟨h.1.symm, h.2.symm⟩)

/-- Extension step of the success invariant: when a placement passes the
check and the recursive search from the extended grid satisfies the
invariant, so does the search from the grid before the placement. -/
theorem solvedFrom_extend (g F : Grid) (r c : Fin 9) (v : Nat)
    (hz : g r c = 0) (hv : v ∈ DIGITS)
    (hvp : isValidPlacement (setCell g r c v) r c v = true)
    (hsf : SolvedFrom (setCell g r c v) F) : SolvedFrom g F := by
  obtain ⟨ha, hr, hn⟩ := hsf
  have hvnz : v ≠ 0 := by have := (mem_DIGITS_iff v).mp hv; omega
  have hFrc : F r c = v := by
    have hh := ha r c (by rw [setCell_eq]; exact hvnz)
    rw [setCell_eq] at hh
    exact hh
  refine ⟨?_, ?_, ?_⟩
  · intro x y hxy
    have hne : ¬(x = r ∧ y = c) := by
      rintro ⟨h1, h2⟩
      subst h1; subst h2
      exact hxy hz
    have hh := ha x y (by rw [setCell_ne g r c v x y hne]; exact hxy)
    rw [setCell_ne g r c v x y hne] at hh
    exact hh
  · intro x y hxy
    by_cases hne : x = r ∧ y = c
    · obtain ⟨h1, h2⟩ := hne
      subst h1; subst h2
      rw [hFrc]
      exact hv
    · exact hr x y (by rw [setCell_ne g r c v x y hne]; exact hxy)
  · intro x y hxy
    by_cases hne : x = r ∧ y = c
    · obtain ⟨h1, h2⟩ := hne
      subst h1; subst h2
      rw [hFrc]
      intro a b hab hsu
      by_cases hzab : setCell g x y v a b = 0
      · have hnab := hn a b hzab
        have hsu2 : sameUnit a b x y := sameUnit_symm x y a b hsu
        have hne2 : ¬(x = a ∧ y = b) := by
          rintro ⟨h1, h2⟩
          exact hab ⟨h1.symm, h2.symm⟩
        have hh := hnab x y hne2 hsu2
        rw [hFrc] at hh
        exact fun he => hh he.symm
      · have hgab := ha a b hzab
        have hnov := (isValidPlacement_iff (setCell g x y v) x y v).mp hvp
        have hh := hnov a b hab hsu
        rw [hgab]
        exact hh
    · have hz1 : setCell g r c v x y = 0 := by
        rw [setCell_ne g r c v x y hne]
        exact hxy
      exact hn x y hz1

/-- Restriction step for completeness: a grid satisfying the invariant
with completion F accepts the placement of F at its empty cell, and the
extended grid still satisfies the invariant with F. -/
theorem solvedFrom_restrict (g F : Grid) (r c : Fin 9)
    (hz : g r c = 0) (hsf : SolvedFrom g F) :
    isValidPlacement (setCell g r c (F r c)) r c (F r c) = true ∧
      SolvedFrom (setCell g r c (F r c)) F := by
  obtain ⟨ha, hr, hn⟩ := hsf
  have hv : F r c ∈ DIGITS := hr r c hz
  have hvnz : F r c ≠ 0 := by have := (mem_DIGITS_iff _).mp hv; omega
  constructor
  · rw [isValidPlacement_iff]
    intro a b hab hsu
    rw [setCell_ne g r c (F r c) a b hab]
    by_cases hzab : g a b = 0
    · rw [hzab]
      exact fun hh => hvnz hh.symm
    · have hh := hn r c hz a b hab hsu
      rw [ha a b hzab] at hh
      exact hh
  · refine ⟨?_, ?_, ?_⟩
    · intro x y hxy
      by_cases hne : x = r ∧ y = c
      · obtain ⟨h1, h2⟩ := hne
        subst h1; subst h2
        rw [setCell_eq]
      · rw [setCell_ne g r c (F r c) x y hne] at hxy ⊢
        exact ha x y hxy
    · intro x y hxy
      have hne : ¬(x = r ∧ y = c) := by
        rintro ⟨h1, h2⟩
        subst h1; subst h2
        rw [setCell_eq] at hxy
        exact hvnz hxy
      rw [setCell_ne g r c (F r c) x y hne] at hxy
      exact hr x y hxy
    · intro x y hxy
      have hne : ¬(x = r ∧ y = c) := by
        rintro ⟨h1, h2⟩
        subst h1; subst h2
        rw [setCell_eq] at hxy
        exact hvnz hxy
      rw [setCell_ne g r c (F r c) x y hne] at hxy
      exact hn x y hxy

/-- Candidate loop congruence for fuel irrelevance: two recursive searches
that agree below the bound give the same loop result. -/
theorem tryCand_congr (recur1 recur2 : Nat → Grid → Bool × Grid × Nat)
    (r c : Fin 9) (bound : Nat)
    (hrec2 : ∀ k h, (recur2 k h).1 = false → (recur2 k h).2.1 = h)
    (hagree : ∀ k h, countEmpty h ≤ bound → recur1 k h = recur2 k h) :
    ∀ (l : List Nat), (∀ v ∈ l, v ∈ DIGITS) →
    ∀ (g : Grid) (k : Nat), g r c = 0 → countEmpty g ≤ bound + 1 →
      tryCand recur1 r c g k l = tryCand recur2 r c g k l := by
  intro l
  induction l with
  | nil =>
    intro _ g k _ _
    rfl
  | cons v rest ih =>
    intro hl g k hz hce
    have hv9 : v ∈ DIGITS := hl v (List.mem_cons_self v rest)
    have hvnz : v ≠ 0 := by have := (mem_DIGITS_iff v).mp hv9; omega
    have hlt : countEmpty (setCell g r c v) ≤ bound := by
      have := countEmpty_set_lt g r c v hz hvnz
      omega
    have hrest : ∀ w ∈ rest, w ∈ DIGITS := fun w hw => hl w (List.mem_cons_of_mem v hw)
    rw [tryCand_cons, tryCand_cons, hagree k (setCell g r c v) hlt]
    have hreset : setCell (setCell g r c v) r c 0 = g := by
      rw [setCell_setCell, setCell_self g r c hz]
    by_cases hvp : isValidPlacement (setCell g r c v) r c v = true
    · rw [if_pos hvp, if_pos hvp]
      by_cases hb : (recur2 k (setCell g r c v)).1 = true
      · rw [if_pos hb, if_pos hb]
      · rw [if_neg hb, if_neg hb]
        have hbf : (recur2 k (setCell g r c v)).1 = false := by
          cases hh : (recur2 k (setCell g r c v)).1
          · rfl
          · exact absurd hh hb
        rw [hrec2 k (setCell g r c v) hbf, hreset]
        exact ih hrest g (recur2 k (setCell g r c v)).2.2 hz hce
    · rw [if_neg hvp, if_neg hvp, hreset]
      exact ih hrest g k hz hce

/-- One step of fuel irrelevance: enough fuel makes one more unit of fuel
redundant. -/
theorem searchS_fuel_succ (cand : Nat → List Nat × Nat)
    (hcand : ∀ k v, v ∈ (cand k).1 → v ∈ DIGITS) :
    ∀ (fuel k : Nat) (g : Grid), countEmpty g ≤ fuel →
      searchS cand (fuel + 1) k g = searchS cand fuel k g := by
  intro fuel
  induction fuel with
  | zero =>
    intro k g hce
    have hfull : ∀ r c, g r c ≠ 0 := (countEmpty_eq_zero_iff g).mp (Nat.le_zero.mp hce)
    have hfe : findEmpty g = none := (findEmpty_eq_none_iff g).mpr hfull
    rw [searchS_succ, searchS_zero, hfe]
  | succ fuel ih =>
    intro k g hce
    rw [searchS_succ cand (fuel + 1) k g, searchS_succ cand fuel k g]
    cases hfe : findEmpty g with
    | none => rfl
    | some p =>
      cases p with
      | mk r c =>
        have hz := findEmpty_some g r c hfe
        exact tryCand_congr (searchS cand (fuel + 1)) (searchS cand fuel) r c fuel
          (fun k2 h2 => searchS_restore cand fuel k2 h2)
          (fun k2 h2 hh => ih k2 h2 hh)
          (cand k).1 (fun v hv => hcand k v hv) g (cand k).2 hz hce

/-- Fuel irrelevance: any fuel at least the number of empty cells gives
the same search result. -/
theorem searchS_fuel_ge (cand : Nat → List Nat × Nat)
    (hcand : ∀ k v, v ∈ (cand k).1 → v ∈ DIGITS)
    (g : Grid) (k m : Nat) (hm : countEmpty g ≤ m) :
    ∀ fuel, m ≤ fuel → searchS cand fuel k g = searchS cand m k g := by
  intro fuel
  induction fuel with
  | zero =>
    intro h
    have hz : m = 0 := Nat.le_zero.mp h
    rw [hz]
  | succ fuel ih =>
    intro h
    rcases Nat.lt_or_ge m (fuel + 1) with hlt | hge
    · have hmf : m ≤ fuel := Nat.lt_succ_iff.mp hlt
      rw [searchS_fuel_succ cand hcand fuel k g (le_trans hm hmf)]
      exact ih hmf
    · have he : m = fuel + 1 := Nat.le_antisymm h hge
      rw [he]

/-- Soundness of the candidate loop: a successful loop produces a grid
satisfying the success invariant. -/
theorem tryCand_sound (recur : Nat → Grid → Bool × Grid × Nat) (fuelB : Nat)
    (hres : ∀ k h, (recur k h).1 = false → (recur k h).2.1 = h)
    (hsnd : ∀ k h, countEmpty h ≤ fuelB → (recur k h).1 = true →
      SolvedFrom h (recur k h).2.1)
    (r c : Fin 9) :
    ∀ (l : List Nat), (∀ v ∈ l, v ∈ DIGITS) →
    ∀ (g : Grid) (k : Nat), g r c = 0 → countEmpty g ≤ fuelB + 1 →
      (tryCand recur r c g k l).1 = true → SolvedFrom g (tryCand recur r c g k l).2.1 := by
  intro l
  induction l with
  | nil =>
    intro _ g k _ _ h
    cases h
  | cons v rest ih =>
    intro hl g k hz hce
    have hv := hl v (List.mem_cons_self v rest)
    have hvnz : v ≠ 0 := by have := (mem_DIGITS_iff v).mp hv; omega
    have hlt : countEmpty (setCell g r c v) ≤ fuelB := by
      have := countEmpty_set_lt g r c v hz hvnz
      omega
    have hreset : setCell (setCell g r c v) r c 0 = g := by
      rw [setCell_setCell, setCell_self g r c hz]
    rw [tryCand_cons]
    by_cases hvp : isValidPlacement (setCell g r c v) r c v = true
    · rw [if_pos hvp]
      by_cases hb : (recur k (setCell g r c v)).1 = true
      · rw [if_pos hb]
        intro _
        exact solvedFrom_extend g _ r c v hz hv hvp (hsnd k (setCell g r c v) hlt hb)
      · rw [if_neg hb]
        have hbf : (recur k (setCell g r c v)).1 = false := by
          cases hh : (recur k (setCell g r c v)).1
          · rfl
          · exact absurd hh hb
        rw [hres k (setCell g r c v) hbf, hreset]
        exact ih (fun w hw => hl w (List.mem_cons_of_mem v hw)) g _ hz hce
    · rw [if_neg hvp, hreset]
      exact ih (fun w hw => hl w (List.mem_cons_of_mem v hw)) g k hz hce

/-- Soundness of the search: a successful search returns a grid that
agrees with the input on filled cells, fills every empty cell with a
digit, and makes every filled in cell pass the placement check. -/
theorem searchS_sound (cand : Nat → List Nat × Nat)
    (hcand : ∀ k v, v ∈ (cand k).1 → v ∈ DIGITS) :
    ∀ (fuel k : Nat) (g : Grid), countEmpty g ≤ fuel →
      (searchS cand fuel k g).1 = true → SolvedFrom g (searchS cand fuel k g).2.1 := by
  intro fuel
  induction fuel with
  | zero =>
    intro k g hce _
    have hfull := (countEmpty_eq_zero_iff g).mp (Nat.le_zero.mp hce)
    have hfe := (findEmpty_eq_none_iff g).mpr hfull
    rw [searchS_zero, hfe]
    exact ⟨fun _ _ _ => rfl, fun x y hxy => absurd hxy (hfull x y),
      fun x y hxy => absurd hxy (hfull x y)⟩
  | succ fuel ih =>
    intro k g hce
    rw [searchS_succ]
    cases hfe : findEmpty g with
    | none =>
      intro _
      have hfull := (findEmpty_eq_none_iff g).mp hfe
      exact ⟨fun _ _ _ => rfl, fun x y hxy => absurd hxy (hfull x y),
        fun x y hxy => absurd hxy (hfull x y)⟩
    | some p =>
      cases p with
      | mk r c =>
        have hz := findEmpty_some g r c hfe
        exact tryCand_sound (searchS cand fuel) fuel
          (fun k2 h2 => searchS_restore cand fuel k2 h2)
          (fun k2 h2 hh1 hh2 => ih k2 h2 hh1 hh2)
          r c (cand k).1 (fun v hv => hcand k v hv) g (cand k).2 hz hce

/-- Completeness of the candidate loop: if some listed candidate passes
the check and its recursive search always succeeds, the loop succeeds. -/
theorem tryCand_complete (recur : Nat → Grid → Bool × Grid × Nat)
    (hres : ∀ k h, (recur k h).1 = false → (recur k h).2.1 = h)
    (r c : Fin 9) (v : Nat) :
    ∀ (l : List Nat), v ∈ l →
    ∀ (g : Grid) (k : Nat), g r c = 0 →
      isValidPlacement (setCell g r c v) r c v = true →
      (∀ k2, (recur k2 (setCell g r c v)).1 = true) →
      (tryCand recur r c g k l).1 = true := by
  intro l
  induction l with
  | nil =>
    intro hv
    cases hv
  | cons w rest ih =>
    intro hv g k hz hvp hrec
    rw [tryCand_cons]
    by_cases hw : w = v
    · subst hw
      rw [if_pos hvp, if_pos (hrec k)]
      exact hrec k
    · have hvrest : v ∈ rest := by
        rcases List.mem_cons.mp hv with h | h
        · exact absurd h.symm hw
        · exact h
      have hreset : setCell (setCell g r c w) r c 0 = g := by
        rw [setCell_setCell, setCell_self g r c hz]
      by_cases hwp : isValidPlacement (setCell g r c w) r c w = true
      · rw [if_pos hwp]
        by_cases hb : (recur k (setCell g r c w)).1 = true
        · rw [if_pos hb]
          exact hb
        · rw [if_neg hb]
          have hbf : (recur k (setCell g r c w)).1 = false := by
            cases hh : (recur k (setCell g r c w)).1
            · rfl
            · exact absurd hh hb
          rw [hres k (setCell g r c w) hbf, hreset]
          exact ih hvrest g _ hz hvp hrec
      · rw [if_neg hwp, hreset]
        exact ih hvrest g k hz hvp hrec

/-- Completeness of the search: a grid satisfying the invariant with some
completion is solved by the search, for any candidate supplier offering
all nine digits at every node. -/
theorem searchS_complete (cand : Nat → List Nat × Nat)
    (hcand : ∀ k v, v ∈ DIGITS → v ∈ (cand k).1) :
    ∀ (fuel : Nat) (g F : Grid), countEmpty g ≤ fuel → SolvedFrom g F →
      ∀ k, (searchS cand fuel k g).1 = true := by
  intro fuel
  induction fuel with
  | zero =>
    intro g F hce _ k
    have hfull := (countEmpty_eq_zero_iff g).mp (Nat.le_zero.mp hce)
    have hfe := (findEmpty_eq_none_iff g).mpr hfull
    rw [searchS_zero, hfe]
  | succ fuel ih =>
    intro g F hce hsf k
    rw [searchS_succ]
    cases hfe : findEmpty g with
    | none => rfl
    | some p =>
      cases p with
      | mk r c =>
        have hz := findEmpty_some g r c hfe
        obtain ⟨hvp, hsf2⟩ := solvedFrom_restrict g F r c hz hsf
        have hvd : F r c ∈ DIGITS := hsf.2.1 r c hz
        have hvnz : F r c ≠ 0 := by have := (mem_DIGITS_iff _).mp hvd; omega
        have hlt : countEmpty (setCell g r c (F r c)) ≤ fuel := by
          have := countEmpty_set_lt g r c (F r c) hz hvnz
          omega
        exact tryCand_complete (searchS cand fuel)
          (fun k2 h2 => searchS_restore cand fuel k2 h2) r c (F r c)
          (cand k).1 (hcand k (F r c) hvd) g (cand k).2 hz hvp
          (fun k2 => ih (setCell g r c (F r c)) F hlt hsf2 k2)

/-- A grid with no empty cell is returned unchanged with success at any
fuel. -/
theorem searchS_full (cand : Nat → List Nat × Nat) (fuel k : Nat) (g : Grid)
    (hfe : findEmpty g = none) : searchS cand fuel k g = (true, g, k) := by
  cases fuel with
  | zero => rw [searchS_zero, hfe]
  | succ fuel => rw [searchS_succ, hfe]

/-- Failure of the solver returns the input grid. -/
theorem solveSudoku_fail (g : Grid) (h : (solveSudoku g).1 = false) :
    (solveSudoku g).2 = g := by
  unfold solveSudoku at h ⊢
  simp only [cloneGrid_eq] at h ⊢
  exact searchS_restore solveCand 81 0 g h

/-- Success of the solver establishes the search invariant. -/
theorem solveSudoku_sound (g : Grid) (h : (solveSudoku g).1 = true) :
    SolvedFrom g (solveSudoku g).2 := by
  unfold solveSudoku at h ⊢
  simp only [cloneGrid_eq] at h ⊢
  exact searchS_sound solveCand (fun k v hv => hv) 81 0 g (countEmpty_le_81 g) h

/-- The invariant grid has no empty cells. -/
theorem solvedFrom_full (g F : Grid) (h : SolvedFrom g F) : ∀ r c, F r c ≠ 0 := by
  intro r c
  by_cases hz : g r c = 0
  · have hd := h.2.1 r c hz
    have := (mem_DIGITS_iff _).mp hd
    omega
  · rw [h.1 r c hz]
    exact hz

/-- A grid with no empty cell solves to itself. -/
theorem solveSudoku_full (g : Grid) (h : ∀ r c, g r c ≠ 0) :
    solveSudoku g = (true, g) := by
  have hfe := (findEmpty_eq_none_iff g).mpr h
  unfold solveSudoku
  simp only [cloneGrid_eq]
  rw [searchS_full solveCand 81 0 g hfe]

/-- A successful solve on a conflict free grid yields a grid whose every
cell passes the placement check for its own value. -/
theorem solveSudoku_success_all_valid (g : Grid) (hc : gridHasConflicts g = false)
    (hs : (solveSudoku g).1 = true) :
    ∀ r c, noOtherHolds (solveSudoku g).2 r c ((solveSudoku g).2 r c) := by
  intro r c
  obtain ⟨ha, hr, hno⟩ := solveSudoku_sound g hs
  have hcf := (gridHasConflicts_eq_false_iff g).mp hc
  by_cases hz : g r c = 0
  · exact hno r c hz
  · have hval : (solveSudoku g).2 r c = g r c := ha r c hz
    rw [hval]
    intro a b hab hsu
    by_cases hzab : g a b = 0
    · have hnab := hno a b hzab
      have hsu2 := sameUnit_symm r c a b hsu
      have hne2 : ¬(r = a ∧ c = b) := by
        rintro ⟨h1, h2⟩
        exact hab ⟨h1.symm, h2.symm⟩
      have hh := hnab r c hne2 hsu2
      rw [hval] at hh
      exact fun he => hh he.symm
    · have hh := hcf r c hz a b hab hsu
      rw [ha a b hzab]
      exact hh

/-- Helper for the C2 counterexample: the all ones grid has no valid
completion, since it has no empty cell and its first two cells already
violate the placement check. -/
theorem allOnes_no_completion : ¬ ∃ F : Grid, ValidCompletion allOnes F := by
  rintro ⟨F, ha, _, hv⟩
  have h00 : F 0 0 = 1 := ha 0 0 (by decide)
  have h01 : F 0 1 = 1 := ha 0 1 (by decide)
  have hh := (isValidPlacement_iff F 0 0 (F 0 0)).mp (hv 0 0)
  have hne := hh 0 1 (by decide) (Or.inl rfl)
  rw [h00, h01] at hne
  exact hne rfl

/-- Helper: the stuck grid has no valid completion, since every digit
for its first cell conflicts with its row holding 1 to 8 or its column
holding 9. -/
theorem stuckGrid_no_completion : ¬ ∃ F : Grid, ValidCompletion stuckGrid F := by
  rintro ⟨F, ha, hr, hv⟩
  have hb := hr 0 0 (by decide)
  have hno := (isValidPlacement_iff F 0 0 (F 0 0)).mp (hv 0 0)
  have e1 : F 0 1 = 1 := ha 0 1 (by decide)
  have e2 : F 0 2 = 2 := ha 0 2 (by decide)
  have e3 : F 0 3 = 3 := ha 0 3 (by decide)
  have e4 : F 0 4 = 4 := ha 0 4 (by decide)
  have e5 : F 0 5 = 5 := ha 0 5 (by decide)
  have e6 : F 0 6 = 6 := ha 0 6 (by decide)
  have e7 : F 0 7 = 7 := ha 0 7 (by decide)
  have e8 : F 0 8 = 8 := ha 0 8 (by decide)
  have e9 : F 1 0 = 9 := ha 1 0 (by decide)
  have p1 := hno 0 1 (by decide) (Or.inl rfl)
  have p2 := hno 0 2 (by decide) (Or.inl rfl)
  have p3 := hno 0 3 (by decide) (Or.inl rfl)
  have p4 := hno 0 4 (by decide) (Or.inl rfl)
  have p5 := hno 0 5 (by decide) (Or.inl rfl)
  have p6 := hno 0 6 (by decide) (Or.inl rfl)
  have p7 := hno 0 7 (by decide) (Or.inl rfl)
  have p8 := hno 0 8 (by decide) (Or.inl rfl)
  have p9 := hno 1 0 (by decide) (Or.inr (Or.inl rfl))
  rw [e1] at p1
  rw [e2] at p2
  rw [e3] at p3
  rw [e4] at p4
  rw [e5] at p5
  rw [e6] at p6
  rw [e7] at p7
  rw [e8] at p8
  rw [e9] at p9
  omega

/-- C1: for every grid with entries up to 9, indices in range and a value
from 1 to 9, isValidPlacement returns true exactly when no cell other
than (row, col) in the same row, column or 3 by 3 box holds the value;
the cell itself is excluded from the comparison. -/
theorem C1_isValidPlacement_matches_spec (g : Grid) (row col : Fin 9) (val : Nat)
    (hg : ∀ r c, g r c ≤ 9) (hval : 1 ≤ val ∧ val ≤ 9) :
    isValidPlacement g row col val = true ↔ noOtherHolds g row col val :=
  isValidPlacement_iff g row col val

/-- Witness for C1 at the empty grid, row 0, column 0, value 5. -/
theorem C1_witness :
    (∀ r c, createEmptyGrid r c ≤ 9) ∧ (1 ≤ 5 ∧ 5 ≤ 9) ∧
      (isValidPlacement createEmptyGrid 0 0 5 = true ↔
        noOtherHolds createEmptyGrid 0 0 5) :=
  ⟨by decide, by decide,
    C1_isValidPlacement_matches_spec createEmptyGrid 0 0 5 (by decide) (by decide)⟩

/-- C2 counterexample: the all ones grid has zero valid completions, yet
solve returns solved true, because a grid without empty cells succeeds
immediately and filled cells are never re-checked. -/
theorem C2_counterexample :
    (¬ ∃ F : Grid, ValidCompletion allOnes F) ∧ (solveSudoku allOnes).1 = true :=
  ⟨allOnes_no_completion, by decide⟩

/-- C2 amended: for every grid free of conflicts among its filled cells,
zero valid completions forces solve to return solved false. -/
theorem C2_amended_unsolvable_conflict_free (g : Grid)
    (hc : gridHasConflicts g = false)
    (hn : ¬ ∃ F : Grid, ValidCompletion g F) :
    (solveSudoku g).1 = false := by
  cases hb : (solveSudoku g).1
  · rfl
  · exfalso
    apply hn
    refine ⟨(solveSudoku g).2, ?_⟩
    obtain ⟨ha, hr, hno⟩ := solveSudoku_sound g hb
    refine ⟨ha, ?_, ?_⟩
    · intro r c hz
      exact (mem_DIGITS_iff _).mp (hr r c hz)
    · intro r c
      rw [isValidPlacement_iff]
      exact solveSudoku_success_all_valid g hc hb r c

/-- Witness for the amended C2 at the stuck grid. -/
theorem C2_witness :
    gridHasConflicts stuckGrid = false ∧
      (¬ ∃ F : Grid, ValidCompletion stuckGrid F) ∧
      (solveSudoku stuckGrid).1 = false :=
  ⟨by decide, stuckGrid_no_completion,
    C2_amended_unsolvable_conflict_free stuckGrid (by decide) stuckGrid_no_completion⟩

/-- C5 counterexample: a successful solve whose returned grid still has
conflicts: the all ones grid is returned as solved and full of
conflicts. -/
theorem C5_counterexample :
    (solveSudoku allOnes).1 = true ∧
      gridHasConflicts (solveSudoku allOnes).2 = true := by
  refine ⟨by decide, by decide⟩

/-- C6: a grid with no empty cell returns solved true and the grid
unchanged. -/
theorem C6_full_grid_solved_unchanged (g : Grid) (h : ∀ r c, g r c ≠ 0) :
    solveSudoku g = (true, g) :=
  solveSudoku_full g h

/-- Witness for C6 at a concrete solved grid. -/
theorem C6_witness :
    (∀ r c, solvedGrid r c ≠ 0) ∧ solveSudoku solvedGrid = (true, solvedGrid) :=
  ⟨by decide, C6_full_grid_solved_unchanged solvedGrid (by decide)⟩

/-- C7: solving the grid returned by solve returns that same grid. -/
theorem C7_solve_idempotent (g : Grid) :
    (solveSudoku (solveSudoku g).2).2 = (solveSudoku g).2 := by
  cases hb : (solveSudoku g).1
  · rw [solveSudoku_fail g hb]
    exact solveSudoku_fail g hb
  · have hsf := solveSudoku_sound g hb
    have hfull := solvedFrom_full g _ hsf
    rw [solveSudoku_full _ hfull]

/-- C8: the solver terminates: there are at most 81 empty cells, fuel
beyond 81 never changes the search result, every recursive call strictly
decreases the number of empty cells, and each level tries the list of
nine digits. -/
theorem C8_termination (g : Grid) (hg : ∀ r c, g r c ≤ 9) :
    countEmpty g ≤ 81 ∧
    (∀ fuel, 81 ≤ fuel → searchS solveCand fuel 0 g = searchS solveCand 81 0 g) ∧
    (∀ (r c : Fin 9) (v : Nat), g r c = 0 → v ∈ DIGITS →
      countEmpty (setCell g r c v) < countEmpty g) ∧
    DIGITS.length = 9 := by
  refine ⟨countEmpty_le_81 g, ?_, ?_, rfl⟩
  · intro fuel hf
    exact searchS_fuel_ge solveCand (fun k v hv => hv) g 0 81
      (countEmpty_le_81 g) fuel hf
  · intro r c v hz hv
    have hvnz : v ≠ 0 := by have := (mem_DIGITS_iff v).mp hv; omega
    exact countEmpty_set_lt g r c v hz hvnz

/-- Witness for C8 at the empty grid and fuel 100. -/
theorem C8_witness :
    (∀ r c, createEmptyGrid r c ≤ 9) ∧
      searchS solveCand 100 0 createEmptyGrid = searchS solveCand 81 0 createEmptyGrid :=
  ⟨by decide, (C8_termination createEmptyGrid (by decide)).2.1 100 (by omega)⟩

/-- C10: a failed solve returns the input grid cell for cell: every
tentative placement of the failed search is undone. -/
theorem C10_failed_solve_returns_input (g : Grid) (h : (solveSudoku g).1 = false) :
    (solveSudoku g).2 = g :=
  solveSudoku_fail g h

/-- Witness for C10 at the stuck grid, on which the search fails. -/
theorem C10_witness :
    (solveSudoku stuckGrid).1 = false ∧ (solveSudoku stuckGrid).2 = stuckGrid :=
  ⟨by decide, C10_failed_solve_returns_input stuckGrid (by decide)⟩

/-- Moving the element at position m to the front while writing x at its
position permutes putting x at the front. -/
theorem getD_cons_set_perm (x : Nat) :
    ∀ (xs : List Nat) (m : Nat), m < xs.length →
      List.Perm (xs.getD m 0 :: xs.set m x) (x :: xs) := by
  intro xs
  induction xs with
  | nil =>
    intro m h
    cases h
  | cons y ys ih =>
    intro m h
    cases m with
    | zero =>
      simp only [List.getD_cons_zero, List.set_cons_zero]
      exact List.Perm.swap x y ys
    | succ n =>
      simp only [List.getD_cons_succ, List.set_cons_succ]
      have h1 : List.Perm (ys.getD n 0 :: y :: ys.set n x)
          (y :: ys.getD n 0 :: ys.set n x) :=
        List.Perm.swap y (ys.getD n 0) (ys.set n x)
      have h2 := List.Perm.cons y (ih n (Nat.lt_of_succ_lt_succ h))
      have h3 : List.Perm (y :: x :: ys) (x :: y :: ys) := List.Perm.swap x y ys
      exact h1.trans (h2.trans h3)

/-- A list with two in range positions swapped is a permutation of the
list. -/
theorem listSwap_perm : ∀ (l : List Nat) (i j : Nat), i < l.length → j < l.length →
    List.Perm (listSwap l i j) l := by
  intro l
  induction l with
  | nil =>
    intro i j h _
    cases h
  | cons x xs ih =>
    intro i j hi hj
    cases i with
    | zero =>
      cases j with
      | zero =>
        unfold listSwap
        simp only [List.getD_cons_zero, List.set_cons_zero]
        exact List.Perm.refl _
      | succ m =>
        unfold listSwap
        simp only [List.getD_cons_zero, List.getD_cons_succ, List.set_cons_zero,
          List.set_cons_succ]
        exact getD_cons_set_perm x xs m (Nat.lt_of_succ_lt_succ hj)
    | succ n =>
      cases j with
      | zero =>
        unfold listSwap
        simp only [List.getD_cons_zero, List.getD_cons_succ, List.set_cons_zero,
          List.set_cons_succ]
        exact getD_cons_set_perm x xs n (Nat.lt_of_succ_lt_succ hi)
      | succ m =>
        unfold listSwap
        simp only [List.getD_cons_succ, List.set_cons_succ]
        exact List.Perm.cons x (ih n m (Nat.lt_of_succ_lt_succ hi)
          (Nat.lt_of_succ_lt_succ hj))

/-- Swapping preserves the length. -/
theorem listSwap_length (l : List Nat) (i j : Nat) :
    (listSwap l i j).length = l.length := by
  simp [listSwap]

/-- The shuffle loop permutes its input list. -/
theorem fyAux_perm (rand : Nat → Nat) :
    ∀ (m k : Nat) (l : List Nat), m < l.length →
      List.Perm (fyAux rand k l m) l := by
  intro m
  induction m with
  | zero =>
    intro k l _
    exact List.Perm.refl l
  | succ m ih =>
    intro k l hm
    have hj : rand k % (m + 2) < l.length := by
      have := Nat.mod_lt (rand k) (show 0 < m + 2 by omega)
      omega
    have hswap := listSwap_perm l (m + 1) (rand k % (m + 2)) hm hj
    have hm2 : m < (listSwap l (m + 1) (rand k % (m + 2))).length := by
      rw [listSwap_length]
      omega
    exact (ih (k + 1) _ hm2).trans hswap

/-- The shuffled digits are a permutation of the digits. -/
theorem shuffledDigits_perm (rand : Nat → Nat) (k : Nat) :
    List.Perm (shuffledDigits rand k) DIGITS :=
  fyAux_perm rand 8 k DIGITS (by decide)

/-- The generator offers only digits at every node. -/
theorem genCand_sub (rand : Nat → Nat) (k : Nat) :
    ∀ v ∈ (genCand rand k).1, v ∈ DIGITS :=
  fun v hv => (shuffledDigits_perm rand k).subset hv

/-- The generator offers all nine digits at every node. -/
theorem genCand_sup (rand : Nat → Nat) (k : Nat) :
    ∀ v ∈ DIGITS, v ∈ (genCand rand k).1 :=
  fun v hv => ((shuffledDigits_perm rand k).mem_iff).mpr hv

/-- The empty grid is completed by the concrete solved grid. -/
theorem emptyGrid_solvedFrom : SolvedFrom createEmptyGrid solvedGrid := by decide

/-- The randomized fill always succeeds, whatever the random stream. -/
theorem genFill_success (rand : Nat → Nat) : (genFill rand).1 = true := by
  unfold genFill
  exact searchS_complete (genCand rand) (fun k v hv => genCand_sup rand k v hv)
    81 createEmptyGrid solvedGrid (countEmpty_le_81 _) emptyGrid_solvedFrom 0

/-- The grid produced by the fill satisfies the search invariant over the
empty grid. -/
theorem genSolution_solvedFrom (rand : Nat → Nat) :
    SolvedFrom createEmptyGrid (genFill rand).2.1 := by
  have hs := genFill_success rand
  unfold genFill at hs ⊢
  exact searchS_sound (genCand rand) (fun k v hv => genCand_sub rand k v hv)
    81 0 createEmptyGrid (countEmpty_le_81 _) hs

/-- Every cell of the generated solution is a digit. -/
theorem genSolution_all_digits (rand : Nat → Nat) :
    ∀ r c, (genFill rand).2.1 r c ∈ DIGITS :=
  fun r c => (genSolution_solvedFrom rand).2.1 r c rfl

/-- The generated solution has no conflicts. -/
theorem genSolution_conflict_free (rand : Nat → Nat) :
    gridHasConflicts (genFill rand).2.1 = false := by
  rw [gridHasConflicts_eq_false_iff]
  intro r c _
  exact (genSolution_solvedFrom rand).2.2 r c rfl

/-- The shuffled index list is a permutation of the 81 cell indices. -/
theorem genIndices_perm (rand : Nat → Nat) :
    List.Perm (genIndices rand) (List.range 81) := by
  unfold genIndices
  refine fyAux_perm rand 80 _ (List.range 81) ?_
  rw [List.length_range]
  omega

/-- Projection of the generator result onto the puzzle. -/
theorem generateSudoku_fst (rand : Nat → Nat) (givens : Int) :
    (generateSudoku rand givens).1 =
      removeCells (cloneGrid (genFill rand).2.1)
        ((genIndices rand).take (toRemoveCount givens)) := by
  show (genPuzzle rand givens, genSolutionGrid rand).1 =
    removeCells (cloneGrid (genFill rand).2.1)
      ((genIndices rand).take (toRemoveCount givens))
  rfl

/-- Projection of the generator result onto the solution. -/
theorem generateSudoku_snd (rand : Nat → Nat) (givens : Int) :
    (generateSudoku rand givens).2 = (genFill rand).2.1 := by
  show (genPuzzle rand givens, genSolutionGrid rand).2 = (genFill rand).2.1
  rfl

/-- Unfolding of the removal loop at the empty list. -/
theorem removeCells_nil (g : Grid) : removeCells g [] = g := rfl

/-- Unfolding of one removal step. -/
theorem removeCells_cons (g : Grid) (idx : Nat) (rest : List Nat) :
    removeCells g (idx :: rest) =
      removeCells (setCell g (rowOfIdx idx) (colOfIdx idx) 0) rest := rfl

/-- Each cell of the removal result is zero or the original value. -/
theorem removeCells_cases :
    ∀ (l : List Nat) (g : Grid) (r c : Fin 9),
      removeCells g l r c = 0 ∨ removeCells g l r c = g r c := by
  intro l
  induction l with
  | nil =>
    intro g r c
    exact Or.inr rfl
  | cons idx rest ih =>
    intro g r c
    rw [removeCells_cons]
    rcases ih (setCell g (rowOfIdx idx) (colOfIdx idx) 0) r c with h | h
    · exact Or.inl h
    · rw [h]
      by_cases hp : r = rowOfIdx idx ∧ c = colOfIdx idx
      · rw [setCell_app, if_pos hp]
        exact Or.inl rfl
      · rw [setCell_ne _ _ _ _ _ _ hp]
        exact Or.inr rfl

/-- Removing distinct in range indices from a grid filled at those cells
removes exactly that many filled cells. -/
theorem removeCells_count :
    ∀ (l : List Nat) (g : Grid), l.Nodup → (∀ idx ∈ l, idx < 81) →
      (∀ idx ∈ l, g (rowOfIdx idx) (colOfIdx idx) ≠ 0) →
      countFilled (removeCells g l) + l.length = countFilled g := by
  intro l
  induction l with
  | nil =>
    intro g _ _ _
    simp [removeCells_nil]
  | cons idx rest ih =>
    intro g hnd hlt hnz
    rw [removeCells_cons]
    have hz := hnz idx (List.mem_cons_self idx rest)
    have hstep := countFilled_set_zero g (rowOfIdx idx) (colOfIdx idx) hz
    have hnotin := (List.nodup_cons.mp hnd).1
    have hnd2 := (List.nodup_cons.mp hnd).2
    have hlt2 : ∀ j ∈ rest, j < 81 := fun j hj => hlt j (List.mem_cons_of_mem idx hj)
    have hnz2 : ∀ j ∈ rest,
        setCell g (rowOfIdx idx) (colOfIdx idx) 0 (rowOfIdx j) (colOfIdx j) ≠ 0 := by
      intro j hj
      have hne : ¬(rowOfIdx j = rowOfIdx idx ∧ colOfIdx j = colOfIdx idx) := by
        rintro ⟨h1, h2⟩
        have hj81 := hlt2 j hj
        have hi81 := hlt idx (List.mem_cons_self idx rest)
        have hv1 : j / 9 % 9 = idx / 9 % 9 := congrArg Fin.val h1
        have hv2 : j % 9 = idx % 9 := congrArg Fin.val h2
        have hji : j = idx := by omega
        rw [hji] at hj
        exact hnotin hj
      rw [setCell_ne _ _ _ _ _ _ hne]
      exact hnz j (List.mem_cons_of_mem idx hj)
    have hrec := ih (setCell g (rowOfIdx idx) (colOfIdx idx) 0) hnd2 hlt2 hnz2
    simp only [List.length_cons]
    omega

/-- The generated puzzle has exactly the clamped number of givens. -/
theorem generate_puzzle_count (rand : Nat → Nat) (givens : Int) :
    countFilled (generateSudoku rand givens).1 = keepCount givens := by
  have hsol_nz : ∀ r c, (genFill rand).2.1 r c ≠ 0 := by
    intro r c
    have := (mem_DIGITS_iff _).mp (genSolution_all_digits rand r c)
    omega
  have hfull : countFilled (genFill rand).2.1 = 81 := countFilled_eq_81 _ hsol_nz
  have hperm := genIndices_perm rand
  have hlen : (genIndices rand).length = 81 := by
    rw [hperm.length_eq, List.length_range]
  have hrm81 : toRemoveCount givens ≤ 81 := by
    unfold toRemoveCount
    omega
  have htake_len : ((genIndices rand).take (toRemoveCount givens)).length
      = toRemoveCount givens := by
    rw [List.length_take, hlen]
    omega
  have hnodup : ((genIndices rand).take (toRemoveCount givens)).Nodup :=
    List.Nodup.sublist (List.take_sublist _ _) (hperm.nodup_iff.mpr (List.nodup_range 81))
  have hmem81 : ∀ idx ∈ (genIndices rand).take (toRemoveCount givens), idx < 81 := by
    intro idx hidx
    have hmem : idx ∈ List.range 81 := hperm.subset (List.mem_of_mem_take hidx)
    exact List.mem_range.mp hmem
  have hcnt := removeCells_count ((genIndices rand).take (toRemoveCount givens))
    (genFill rand).2.1 hnodup hmem81 (fun j _ => hsol_nz _ _)
  have hgoal : (generateSudoku rand givens).1 =
      removeCells (genFill rand).2.1 ((genIndices rand).take (toRemoveCount givens)) := by
    rw [generateSudoku_fst, cloneGrid_eq]
  rw [hgoal]
  have hkeep : toRemoveCount givens + keepCount givens = 81 := by
    unfold toRemoveCount keepCount
    omega
  omega

/-- Zeroing inside the solution the cells where the puzzle is empty
reproduces the puzzle. -/
theorem generate_overlay (rand : Nat → Nat) (givens : Int) :
    (fun r c => if (generateSudoku rand givens).1 r c = 0 then 0
      else (generateSudoku rand givens).2 r c) = (generateSudoku rand givens).1 := by
  simp only [generateSudoku_fst, generateSudoku_snd, cloneGrid_eq]
  funext r c
  by_cases hz : removeCells (genFill rand).2.1
      ((genIndices rand).take (toRemoveCount givens)) r c = 0
  · rw [if_pos hz, hz]
  · rw [if_neg hz]
    have hcase := removeCells_cases ((genIndices rand).take (toRemoveCount givens))
      (genFill rand).2.1 r c
    rcases hcase with h | h
    · exact absurd h hz
    · exact h.symm

/-- With the option 90 the clamp keeps all 81 cells: the puzzle is the
unmodified solution. -/
theorem generate_90_puzzle_eq_solution (rand : Nat → Nat) :
    (generateSudoku rand 90).1 = (generateSudoku rand 90).2 := by
  have h0 : toRemoveCount 90 = 0 := by decide
  rw [generateSudoku_fst, generateSudoku_snd, h0, List.take_zero, removeCells_nil,
    cloneGrid_eq]

/-- The generated puzzle has no conflicts: its filled cells carry the
values of the conflict free solution, checked against fewer filled
cells. -/
theorem genPuzzle_conflict_free (rand : Nat → Nat) (givens : Int) :
    gridHasConflicts (generateSudoku rand givens).1 = false := by
  rw [generateSudoku_fst, cloneGrid_eq, gridHasConflicts_eq_false_iff]
  intro r c hnz
  have hno := (genSolution_solvedFrom rand).2.2 r c rfl
  have hcase := removeCells_cases ((genIndices rand).take (toRemoveCount givens))
    (genFill rand).2.1 r c
  rcases hcase with h | h
  · exact absurd h hnz
  · rw [h]
    intro a b hab hsu
    have hcase2 := removeCells_cases ((genIndices rand).take (toRemoveCount givens))
      (genFill rand).2.1 a b
    rcases hcase2 with h2 | h2
    · rw [h2]
      have := (mem_DIGITS_iff _).mp (genSolution_all_digits rand r c)
      omega
    · rw [h2]
      exact hno a b hab hsu

/-- C3: for every random stream and every integer givens option, the
generated puzzle has exactly clamp(givens, 17, 81) filled cells, zeroing
inside the solution the cells where the puzzle is empty reproduces the
puzzle, givens 5 clamps to 17 givens, and givens 90 clamps to 81 with the
puzzle equal to the unmodified solved grid. -/
theorem C3_generate_counts_and_clamp (rand : Nat → Nat) (givens : Int) :
    countFilled (generateSudoku rand givens).1 = keepCount givens ∧
    (fun r c => if (generateSudoku rand givens).1 r c = 0 then 0
      else (generateSudoku rand givens).2 r c) = (generateSudoku rand givens).1 ∧
    countFilled (generateSudoku rand 5).1 = 17 ∧
    (generateSudoku rand 90).1 = (generateSudoku rand 90).2 := by
  refine ⟨generate_puzzle_count rand givens, generate_overlay rand givens, ?_,
    generate_90_puzzle_eq_solution rand⟩
  rw [generate_puzzle_count rand 5]
  decide

/-- C5 amended: hasConflicts is false on both the puzzle and the solution
of every generate call; for solve, the grid of a call returning solved
true is conflict free provided the input grid was conflict free. -/
theorem C5_amended_conflict_free (rand : Nat → Nat) (givens : Int) (g : Grid) :
    gridHasConflicts (generateSudoku rand givens).1 = false ∧
    gridHasConflicts (generateSudoku rand givens).2 = false ∧
    (gridHasConflicts g = false → (solveSudoku g).1 = true →
      gridHasConflicts (solveSudoku g).2 = false) := by
  refine ⟨genPuzzle_conflict_free rand givens, ?_, ?_⟩
  · rw [generateSudoku_snd]
    exact genSolution_conflict_free rand
  intro hc hs
  rw [gridHasConflicts_eq_false_iff]
  intro r c _
  exact solveSudoku_success_all_valid g hc hs r c

/-- Witness for the amended C5 at a concrete conflict free solved grid. -/
theorem C5_witness :
    gridHasConflicts solvedGrid = false ∧ (solveSudoku solvedGrid).1 = true ∧
      gridHasConflicts (solveSudoku solvedGrid).2 = false :=
  ⟨by decide, by decide,
    (C5_amended_conflict_free (fun _ => 0) 30 solvedGrid).2.2 (by decide) (by decide)⟩

/-- A heap update changes only the written address. -/
theorem hUpdate_ne (h : Heap) (a : Nat) (row : List Nat) (x : Nat) (hx : x ≠ a) :
    hUpdate h a row x = h x := by
  simp [hUpdate, hx]

/-- The row addresses of a nine row grid object are among its address
list. -/
theorem rowAddr_mem (addrs : List Nat) (r : Nat) (hlen : addrs.length = 9)
    (hr : r < 9) : rowAddr addrs r ∈ addrs := by
  unfold rowAddr
  have hr2 : r < addrs.length := by omega
  rw [List.getD_eq_getElem?_getD, List.getElem?_eq_getElem hr2]
  exact List.getElem_mem hr2

/-- A cell write keeps every address outside the written row unchanged. -/
theorem writeCellH_outside (h : Heap) (addrs : List Nat) (r c v : Nat) (x : Nat)
    (hx : x ≠ rowAddr addrs r) : writeCellH h addrs r c v x = h x :=
  hUpdate_ne h (rowAddr addrs r) _ x hx

/-- Unfolding of the heap candidate loop on the empty list. -/
theorem tryCandH_nil (recur : Heap → Bool × Heap) (addrs : List Nat) (r c : Nat)
    (h : Heap) : tryCandH recur addrs r c h [] = (false, h) := rfl

/-- Unfolding of the heap candidate loop on a nonempty list. -/
theorem tryCandH_cons (recur : Heap → Bool × Heap) (addrs : List Nat) (r c : Nat)
    (h : Heap) (v : Nat) (rest : List Nat) :
    tryCandH recur addrs r c h (v :: rest) =
      if isValidPlacementH (writeCellH h addrs r c v) addrs r c v then
        if (recur (writeCellH h addrs r c v)).1 then recur (writeCellH h addrs r c v)
        else tryCandH recur addrs r c
          (writeCellH (recur (writeCellH h addrs r c v)).2 addrs r c 0) rest
      else tryCandH recur addrs r c
        (writeCellH (writeCellH h addrs r c v) addrs r c 0) rest := rfl

/-- The heap candidate loop writes only inside the grid object rows. -/
theorem tryCandH_outside (recur : Heap → Bool × Heap) (addrs : List Nat)
    (hlen : addrs.length = 9) (r c : Nat) (hr : r < 9)
    (hrec : ∀ h x, x ∉ addrs → (recur h).2 x = h x) :
    ∀ (l : List Nat) (h : Heap) (x : Nat), x ∉ addrs →
      (tryCandH recur addrs r c h l).2 x = h x := by
  intro l
  induction l with
  | nil =>
    intro h x _
    rfl
  | cons v rest ih =>
    intro h x hx
    have hxa : x ≠ rowAddr addrs r := by
      intro he
      apply hx
      rw [he]
      exact rowAddr_mem addrs r hlen hr
    rw [tryCandH_cons]
    by_cases hvp : isValidPlacementH (writeCellH h addrs r c v) addrs r c v = true
    · rw [if_pos hvp]
      by_cases hb : (recur (writeCellH h addrs r c v)).1 = true
      · rw [if_pos hb]
        rw [hrec (writeCellH h addrs r c v) x hx]
        exact writeCellH_outside h addrs r c v x hxa
      · rw [if_neg hb]
        rw [ih (writeCellH (recur (writeCellH h addrs r c v)).2 addrs r c 0) x hx]
        rw [writeCellH_outside _ addrs r c 0 x hxa]
        rw [hrec (writeCellH h addrs r c v) x hx]
        exact writeCellH_outside h addrs r c v x hxa
    · rw [if_neg hvp]
      rw [ih (writeCellH (writeCellH h addrs r c v) addrs r c 0) x hx]
      rw [writeCellH_outside _ addrs r c 0 x hxa]
      exact writeCellH_outside h addrs r c v x hxa

/-- Unfolding of the heap search at fuel zero. -/
theorem backtrackH_zero (addrs : List Nat) (h : Heap) :
    backtrackH addrs 0 h =
      match findEmptyH h addrs with
      | none => (true, h)
      | some _ => (false, h) := rfl

/-- Unfolding of the heap search at positive fuel. -/
theorem backtrackH_succ (addrs : List Nat) (fuel : Nat) (h : Heap) :
    backtrackH addrs (fuel + 1) h =
      match findEmptyH h addrs with
      | none => (true, h)
      | some (r, c) => tryCandH (backtrackH addrs fuel) addrs r c h DIGITS := rfl

/-- The heap search writes only inside the grid object rows. -/
theorem backtrackH_outside (addrs : List Nat) (hlen : addrs.length = 9) :
    ∀ (fuel : Nat) (h : Heap) (x : Nat), x ∉ addrs →
      (backtrackH addrs fuel h).2 x = h x := by
  intro fuel
  induction fuel with
  | zero =>
    intro h x _
    rw [backtrackH_zero]
    cases findEmptyH h addrs
    · rfl
    · rfl
  | succ fuel ih =>
    intro h x hx
    rw [backtrackH_succ]
    cases hfe : findEmptyH h addrs with
    | none => rfl
    | some p =>
      cases p with
      | mk r c =>
        have hfe2 : allCellsN.find? (fun p => decide (readCellH h addrs p.1 p.2 = 0))
            = some (r, c) := hfe
        have hmem := List.mem_of_find?_eq_some hfe2
        have hr : r < 9 := by
          have hpm := (List.pair_mem_product.mp hmem).1
          exact List.mem_range.mp hpm
        exact tryCandH_outside (backtrackH addrs fuel) addrs hlen r c hr
          (fun h2 x2 hx2 => ih h2 x2 hx2) DIGITS h x hx

/-- The clone allocation writes nothing below the fresh address n. -/
theorem cloneGridHeap_below (h : Heap) (n : Nat) (addrs : List Nat) (x : Nat)
    (hx : x < n) : cloneGridHeap h n addrs x = h x := by
  unfold cloneGridHeap
  have hgen : ∀ (l : List Nat) (hh : Heap),
      (l.foldl (fun acc i => hUpdate acc (n + i) (h (rowAddr addrs i))) hh) x = hh x := by
    intro l
    induction l with
    | nil =>
      intro hh
      rfl
    | cons i rest ih =>
      intro hh
      rw [List.foldl_cons, ih]
      exact hUpdate_ne hh (n + i) _ x (by omega)
  exact hgen (List.range 9) h

/-- The clone addresses all lie at or above the allocation counter. -/
theorem cloneAddrs_ge (n x : Nat) (hx : x ∈ cloneAddrs n) : n ≤ x := by
  unfold cloneAddrs at hx
  obtain ⟨i, _, hi⟩ := List.mem_map.mp hx
  omega

/-- The clone has nine row addresses. -/
theorem cloneAddrs_length (n : Nat) : (cloneAddrs n).length = 9 := by
  unfold cloneAddrs
  rw [List.length_map, List.length_range]

/-- C4: the heap rendering of solveSudoku never mutates the caller grid:
with the caller row addresses allocated below the fresh counter, the cell
for cell snapshot of the caller grid after the call equals the snapshot
before the call; the search operates only on its private clone. -/
theorem C4_solve_never_mutates_caller (h : Heap) (n : Nat) (addrs : List Nat)
    (hlen : addrs.length = 9) (hbelow : ∀ a ∈ addrs, a < n) :
    gridSnapshot (solveSudokuHeap h n addrs).2 addrs = gridSnapshot h addrs := by
  have hkey : ∀ a ∈ addrs, (solveSudokuHeap h n addrs).2 a = h a := by
    intro a ha
    have han : a < n := hbelow a ha
    have hnotclone : a ∉ cloneAddrs n := by
      intro hc
      have := cloneAddrs_ge n a hc
      omega
    show (backtrackH (cloneAddrs n) 81 (cloneGridHeap h n addrs)).2 a = h a
    rw [backtrackH_outside (cloneAddrs n) (cloneAddrs_length n) 81
      (cloneGridHeap h n addrs) a hnotclone]
    exact cloneGridHeap_below h n addrs a han
  unfold gridSnapshot
  apply List.map_congr_left
  intro r hr
  apply List.map_congr_left
  intro c _
  unfold readCellH
  rw [hkey (rowAddr addrs r) (rowAddr_mem addrs r hlen (List.mem_range.mp hr))]

/-- Witness for C4 at a concrete empty heap and caller addresses 0 to 8
allocated below the counter 9. -/
theorem C4_witness :
    ([0, 1, 2, 3, 4, 5, 6, 7, 8] : List Nat).length = 9 ∧
    (∀ a ∈ ([0, 1, 2, 3, 4, 5, 6, 7, 8] : List Nat), a < 9) ∧
    gridSnapshot (solveSudokuHeap (fun _ => []) 9 [0, 1, 2, 3, 4, 5, 6, 7, 8]).2
        [0, 1, 2, 3, 4, 5, 6, 7, 8]
      = gridSnapshot (fun _ => []) [0, 1, 2, 3, 4, 5, 6, 7, 8] :=
  ⟨by decide, by decide,
    C4_solve_never_mutates_caller (fun _ => []) 9 [0, 1, 2, 3, 4, 5, 6, 7, 8]
      (by decide) (by decide)⟩

/-- Bind of a successful Except value. -/
theorem except_bind_ok (a : Bool) (f : Bool → Except Unit Bool) :
    (Except.ok a : Except Unit Bool).bind f = f a := rfl

/-- Unfolding of the row and column loop of the JavaScript model. -/
theorem rowColCheckJS_cons (grid : GridL) (row col val i : Nat) (rest : List Nat) :
    rowColCheckJS grid row col val (i :: rest) =
      (if i = col then Except.ok false
       else
         match grid[row]? with
         | none => Except.error ()
         | some rowl => Except.ok (decide (rowl[i]? = some val))).bind (fun c1 =>
      if c1 then Except.ok false
      else
        (if i = row then Except.ok false
         else
           match grid[i]? with
           | none => Except.error ()
           | some rowl => Except.ok (decide (rowl[col]? = some val))).bind (fun c2 =>
        if c2 then Except.ok false
        else rowColCheckJS grid row col val rest)) := rfl

/-- With an in range row on a nine row grid, the row and column loop never
throws, whatever the column and value. -/
theorem rowColCheckJS_ok (grid : GridL) (row col val : Nat) (hlen : grid.length = 9)
    (hrow : row < 9) :
    ∀ (l : List Nat), (∀ i ∈ l, i < 9) →
      ∃ b, rowColCheckJS grid row col val l = Except.ok b := by
  intro l
  induction l with
  | nil =>
    intro _
    exact ⟨true, rfl⟩
  | cons i rest ih =>
    intro hl
    have hi9 : i < grid.length := by
      have := hl i (List.mem_cons_self i rest)
      omega
    have hrow9 : row < grid.length := by omega
    rw [rowColCheckJS_cons]
    have hg1 : ∃ b1 : Bool, (if i = col then Except.ok false
        else
          match grid[row]? with
          | none => Except.error ()
          | some rowl => Except.ok (decide (rowl[i]? = some val))) = Except.ok b1 := by
      by_cases hic : i = col
      · exact ⟨false, if_pos hic⟩
      · rw [if_neg hic, List.getElem?_eq_getElem hrow9]
        exact ⟨_, rfl⟩
    obtain ⟨b1, hb1⟩ := hg1
    rw [hb1]
    simp only [except_bind_ok]
    cases b1 with
    | true => exact ⟨false, rfl⟩
    | false =>
      have hg2 : ∃ b2 : Bool, (if i = row then Except.ok false
          else
            match grid[i]? with
            | none => Except.error ()
            | some rowl => Except.ok (decide (rowl[col]? = some val))) = Except.ok b2 := by
        by_cases hir : i = row
        · exact ⟨false, if_pos hir⟩
        · rw [if_neg hir, List.getElem?_eq_getElem hi9]
          exact ⟨_, rfl⟩
      obtain ⟨b2, hb2⟩ := hg2
      rw [hb2]
      simp only [except_bind_ok]
      cases b2 with
      | true => exact ⟨false, rfl⟩
      | false => exact ih (fun j hj => hl j (List.mem_cons_of_mem i hj))

/-- Unfolding of the box loop of the JavaScript model. -/
theorem boxCheckJS_cons (grid : GridL) (row col val r c : Nat)
    (rest : List (Nat × Nat)) :
    boxCheckJS grid row col val ((r, c) :: rest) =
      (if r = row ∧ c = col then Except.ok false
       else
         match grid[r]? with
         | none => Except.error ()
         | some rowl => Except.ok (decide (rowl[c]? = some val))).bind (fun cond =>
      if cond then Except.ok false
      else boxCheckJS grid row col val rest) := rfl

/-- With in range row components on a nine row grid, the box loop never
throws. -/
theorem boxCheckJS_ok (grid : GridL) (row col val : Nat) (hlen : grid.length = 9) :
    ∀ (l : List (Nat × Nat)), (∀ p ∈ l, p.1 < 9) →
      ∃ b, boxCheckJS grid row col val l = Except.ok b := by
  intro l
  induction l with
  | nil =>
    intro _
    exact ⟨true, rfl⟩
  | cons p rest ih =>
    intro hl
    cases p with
    | mk r c =>
      have hr9 : r < grid.length := by
        have := hl (r, c) (List.mem_cons_self _ _)
        simp only at this
        omega
      rw [boxCheckJS_cons]
      have hg : ∃ b1 : Bool, (if r = row ∧ c = col then Except.ok false
          else
            match grid[r]? with
            | none => Except.error ()
            | some rowl => Except.ok (decide (rowl[c]? = some val))) = Except.ok b1 := by
        by_cases hrc : r = row ∧ c = col
        · exact ⟨false, if_pos hrc⟩
        · rw [if_neg hrc, List.getElem?_eq_getElem hr9]
          exact ⟨_, rfl⟩
      obtain ⟨b1, hb1⟩ := hg
      rw [hb1]
      simp only [except_bind_ok]
      cases b1 with
      | true => exact ⟨false, rfl⟩
      | false => exact ih (fun q hq => hl q (List.mem_cons_of_mem _ hq))

/-- C9 counterexample: out of range inputs do not fail fast: the value 0
(outside 1 to 9) and the column 9 with value 10 both silently return a
boolean computed by the same comparisons. -/
theorem C9_counterexample :
    isValidPlacementJS jsEmptyGrid 0 0 0 = Except.ok false ∧
      isValidPlacementJS jsEmptyGrid 0 9 10 = Except.ok true :=
  ⟨rfl, rfl⟩

/-- C9 amended: isValidPlacement performs no precondition check: for any
in range row the call always returns a boolean, silently, even when the
column or the value is out of range; only an out of range row aborts, with
a runtime type error from indexing a missing row, as on the empty grid
with row 9. -/
theorem C9_amended_out_of_range_behaviour :
    (∀ (grid : GridL) (row col val : Nat), grid.length = 9 → row < 9 →
      jsNoThrow (isValidPlacementJS grid row col val) = true) ∧
    isValidPlacementJS jsEmptyGrid 9 0 5 = Except.error () := by
  constructor
  · intro grid row col val hlen hrow
    obtain ⟨b1, hb1⟩ := rowColCheckJS_ok grid row col val hlen hrow (List.range 9)
      (fun i hi => List.mem_range.mp hi)
    unfold isValidPlacementJS
    rw [hb1]
    simp only [except_bind_ok]
    cases b1 with
    | false => rfl
    | true =>
      have hbox : ∀ p ∈ boxCellsJS (row / 3 * 3) (col / 3 * 3), p.1 < 9 := by
        intro p hp
        cases p with
        | mk a b =>
          have ha := (List.pair_mem_product.mp hp).1
          have hx : a = row / 3 * 3 ∨ a = row / 3 * 3 + 1 ∨ a = row / 3 * 3 + 2 := by
            simpa using ha
          simp only
          omega
      obtain ⟨b2, hb2⟩ := boxCheckJS_ok grid row col val hlen
        (boxCellsJS (row / 3 * 3) (col / 3 * 3)) hbox
      show jsNoThrow (boxCheckJS grid row col val
        (boxCellsJS (row / 3 * 3) (col / 3 * 3))) = true
      rw [hb2]
      rfl
  · rfl

/-- Witness for the amended C9: a silent boolean for out of range column
and value, and the concrete error for an out of range row. -/
theorem C9_witness :
    jsNoThrow (isValidPlacementJS jsEmptyGrid 0 9 10) = true ∧
      isValidPlacementJS jsEmptyGrid 9 0 5 = Except.error () :=
  ⟨C9_amended_out_of_range_behaviour.1 jsEmptyGrid 0 9 10 rfl (by omega),
    C9_amended_out_of_range_behaviour.2⟩
